import Mathlib

/-!
Verification development for the lazycontract library (file
src/lazycontract/contract.py).  The Python code is shallowly embedded:
Python runtime values become the inductive type Val, Python dictionaries
become insertion-ordered association lists, exceptions become an error
type threaded through Except, and the classes LazyProperty / LazyContract
/ StrictContract / DynamicContract become structures plus executable
functions mirroring their methods line by line.
-/

/-- A Python runtime value, as far as the contract core manipulates them:
None, booleans, integers, strings, lists and string-keyed dictionaries
(insertion-ordered association lists, as in CPython). -/
inductive Val where
  | none
  | bool (b : Bool)
  | int (n : Int)
  | str (s : String)
  | list (xs : List Val)
  | dict (xs : List (String × Val))

mutual

/-- Structural equality of Python values (the == used by the library on
field values; cross-type numeric coercions are not modelled). -/
def Val.beq : Val → Val → Bool
  | .none, .none => true
  | .bool a, .bool b => a == b
  | .int a, .int b => a == b
  | .str a, .str b => a == b
  | .list a, .list b => beqValList a b
  | .dict a, .dict b => beqValDict a b
  | _, _ => false

def beqValList : List Val → List Val → Bool
  | [], [] => true
  | a :: s, b :: t => Val.beq a b && beqValList s t
  | _, _ => false

def beqValDict : List (String × Val) → List (String × Val) → Bool
  | [], [] => true
  | (k, a) :: s, (l, b) :: t => k == l && Val.beq a b && beqValDict s t
  | _, _ => false

end

mutual

theorem Val.eq_of_beq : ∀ {a b : Val}, Val.beq a b = true → a = b
  | .none, .none, _ => rfl
  | .bool a, .bool b, h => by simpa [Val.beq] using h
  | .int a, .int b, h => by simpa [Val.beq] using h
  | .str a, .str b, h => by simpa [Val.beq] using h
  | .list a, .list b, h =>
      congrArg Val.list (eqValList_of_beq (by simpa [Val.beq] using h))
  | .dict a, .dict b, h =>
      congrArg Val.dict (eqValDict_of_beq (by simpa [Val.beq] using h))

theorem eqValList_of_beq : ∀ {a b : List Val}, beqValList a b = true → a = b
  | [], [], _ => rfl
  | a :: s, b :: t, h => by
      have h' := h
      simp only [beqValList, Bool.and_eq_true] at h'
      rw [Val.eq_of_beq h'.1, eqValList_of_beq h'.2]

theorem eqValDict_of_beq : ∀ {a b : List (String × Val)}, beqValDict a b = true → a = b
  | [], [], _ => rfl
  | (k, a) :: s, (l, b) :: t, h => by
      have h' := h
      simp only [beqValDict, Bool.and_eq_true, beq_iff_eq] at h'
      rw [h'.1.1, Val.eq_of_beq h'.1.2, eqValDict_of_beq h'.2]

end

mutual

theorem Val.beq_refl : ∀ (a : Val), Val.beq a a = true
  | .none => rfl
  | .bool a => by simp [Val.beq]
  | .int a => by simp [Val.beq]
  | .str a => by simp [Val.beq]
  | .list a => by simpa [Val.beq] using beqValList_refl a
  | .dict a => by simpa [Val.beq] using beqValDict_refl a

theorem beqValList_refl : ∀ (a : List Val), beqValList a a = true
  | [] => rfl
  | a :: s => by simp [beqValList, Val.beq_refl a, beqValList_refl s]

theorem beqValDict_refl : ∀ (a : List (String × Val)), beqValDict a a = true
  | [] => rfl
  | (k, a) :: s => by simp [beqValDict, Val.beq_refl a, beqValDict_refl s]

end

instance : DecidableEq Val := fun a b =>
  decidable_of_iff (Val.beq a b = true) ⟨Val.eq_of_beq, fun h => h ▸ Val.beq_refl a⟩

mutual

/-- Python repr() restricted to the values of Val (string escaping is not
modelled; keys and strings are wrapped in single quotes as CPython does). -/
def Val.pyRepr : Val → String
  | .none => "None"
  | .bool true => "True"
  | .bool false => "False"
  | .int n => toString n
  | .str s => "'" ++ s ++ "'"
  | .list xs => "[" ++ String.intercalate ", " (pyReprValList xs) ++ "]"
  | .dict xs => "\x7b" ++ String.intercalate ", " (pyReprValDict xs) ++ "\x7d"

def pyReprValList : List Val → List String
  | [] => []
  | v :: t => v.pyRepr :: pyReprValList t

def pyReprValDict : List (String × Val) → List String
  | [] => []
  | (k, v) :: t => ("'" ++ k ++ "': " ++ v.pyRepr) :: pyReprValDict t

end

/-- Python str() on Val: identity on strings, repr on everything else. -/
def Val.pyStr : Val → String
  | .str s => s
  | v => v.pyRepr

/-- Python truthiness of a Val, as tested by the expressions
(_obj or kwargs) and (_obj is not None and kwargs) in LazyContract init. -/
def Val.truthy : Val → Bool
  | .none => false
  | .bool b => b
  | .int n => n != 0
  | .str s => s != ""
  | .list xs => !xs.isEmpty
  | .dict xs => !xs.isEmpty

/-- Whether the value behaves like a key-value mapping, i.e. the Python
test hasattr(obj, "items") used by discovery and population. -/
def Val.isDict : Val → Bool
  | .dict _ => true
  | _ => false

/-- The exceptions the contract core raises or intercepts:
LazyContractError (configuration misuse), LazyContractValidationError
(carrying the raising class name, a dotted path and a message), and a
generic exception from user-supplied hooks carrying its str(). -/
inductive LazyErr where
  | contractError (msg : String)
  | validation (clsname path msg : String)
  | other (msg : String)
deriving DecidableEq

/-- LazyProperty._default_name, the sentinel marking a property whose
serialization name was not given explicitly. -/
def defaultName : String := "(anonymous)"

/-- Embedding of class LazyProperty.  pid identifies the descriptor
object (Python object identity, used by tuple comparison in equality);
clsName is type(self).__name__ and typeName is str(self._type), both only
used in error messages; typeCheck models isinstance(obj, self._type);
serialize and deserialize are the overridable hooks. -/
structure LazyProperty where
  pid : Nat
  clsName : String
  typeName : String
  typeCheck : Val → Bool
  serialize : Val → Val
  deserialize : Val → Except LazyErr Val
  name : String
  default : Val
  required : Bool
  not_none : Bool
  exclude_if_none : Bool

/-- LazyProperty.__init__: rejects required together with a non-None
default, then stores the options; name defaults to the anonymous sentinel
when absent or empty (Python: name or self._default_name). -/
def LazyProperty.make (pid : Nat) (clsName typeName : String) (typeCheck : Val → Bool)
    (serialize : Val → Val) (deserialize : Val → Except LazyErr Val)
    (name : Option String) (default : Val) (required not_none exclude_if_none : Bool) :
    Except LazyErr LazyProperty :=
  if required = true ∧ default ≠ Val.none then
    .error (.contractError "default specified for required property")
  else
    .ok { pid := pid, clsName := clsName, typeName := typeName, typeCheck := typeCheck,
          serialize := serialize, deserialize := deserialize,
          name := match name with
            | some s => if s = "" then defaultName else s
            | .none => defaultName,
          default := default, required := required, not_none := not_none,
          exclude_if_none := exclude_if_none }

def notNoneMsg (n : String) : String := n ++ " must not be None"

def requiredMsg (n r : String) : String := "'" ++ n ++ "' not found in " ++ r

def invalidAttrMsg (n : String) : String := "no attribute '" ++ n ++ "'"

def notDictMsg (v : Val) : String := "'" ++ v.pyStr ++ "' is not a dictionary"

/-- LazyProperty.validate: None with not_none set is rejected with an
empty path; a non-None value failing the type test is rejected with path
"." + name. -/
def LazyProperty.validate (p : LazyProperty) (v : Val) : Except LazyErr Unit :=
  if v = Val.none ∧ p.not_none then
    .error (.validation p.clsName "" (notNoneMsg p.name))
  else if ¬ p.typeCheck v ∧ v ≠ Val.none then
    .error (.validation p.clsName ("." ++ p.name)
      ("value " ++ v.pyRepr ++ " is not of type " ++ p.typeName))
  else .ok ()

/-- Lookup in an insertion-ordered association list (dict access). -/
def lookupA {α : Type} : List (String × α) → String → Option α
  | [], _ => Option.none
  | (k, v) :: t, key => if k = key then some v else lookupA t key

/-- Python dict assignment: replace in place if the key exists, else
append at the end. -/
def insertA {α : Type} : List (String × α) → String → α → List (String × α)
  | [], key, v => [(key, v)]
  | (k, w) :: t, key, v =>
      if k = key then (key, v) :: t else (k, w) :: insertA t key v

/-- Python membership test (key in dict). -/
def keyIn {α : Type} (l : List (String × α)) (key : String) : Bool :=
  (lookupA l key).isSome

/-- A class body that declares properties: its __name__ and the
(identifier, descriptor) pairs of its __dict__ in declaration order. -/
structure ContractClass where
  cname : String
  decls : List (String × LazyProperty)

/-- A concrete contract type: the reversed method resolution order
restricted to the proper LazyContract subclasses (base first, the
concrete class last), the _ignore_undefined_attributes flag (False for
StrictContract) and whether _populate_properties is the DynamicContract
override. -/
structure ContractType where
  chain : List ContractClass
  ignoreUndefined : Bool
  dynamic : Bool

/-- type(self).__name__ of an instance of this contract type. -/
def ContractType.clsname (t : ContractType) : String :=
  (t.chain.map ContractClass.cname).getLastD "LazyContract"

/-- The _properties and _mappings dictionaries accumulated by discovery. -/
structure DiscSt where
  props : List (String × LazyProperty)
  mappings : List (String × String)

/-- Resolution of a descriptor name at discovery time: an anonymous
descriptor takes the field identifier as its name (the source mutates the
shared descriptor; because the mutation is idempotent the functional
resolution is equivalent). -/
def LazyProperty.resolved (p : LazyProperty) (ident : String) : LazyProperty :=
  if p.name = defaultName then { p with name := ident } else p

/-- Registration half of one loop iteration of __discover_properties:
record the descriptor under its identifier and, for an explicitly named
descriptor, record the external-name-to-identifier mapping. -/
def registerDecl (st : DiscSt) (ident : String) (p : LazyProperty) : DiscSt :=
  { props := insertA st.props ident (p.resolved ident),
    mappings := if p.name = defaultName then st.mappings
                else insertA st.mappings p.name ident }

/-- Checking half of one loop iteration of __discover_properties: when
neither the resolved name nor the identifier occurs in the source, a
required property or a not_none property without default is an error. -/
def checkDecl (cn : String) (es : List (String × Val)) (ident : String)
    (p : LazyProperty) : Except LazyErr Unit :=
  if keyIn es (p.resolved ident).name ∨ keyIn es ident then .ok ()
  else if (p.resolved ident).required then
    .error (.validation cn ""
      (requiredMsg (p.resolved ident).name (Val.pyRepr (Val.dict es))))
  else if (p.resolved ident).not_none ∧ (p.resolved ident).default = Val.none then
    .error (.validation cn "" (notNoneMsg (p.resolved ident).name))
  else .ok ()

/-- The descriptor loop of __discover_properties over one class body. -/
def discoverDecls (cn : String) (es : List (String × Val)) :
    List (String × LazyProperty) → DiscSt → Except LazyErr DiscSt
  | [], st => .ok st
  | (ident, p) :: rest, st => do
      let st' := registerDecl st ident p
      let _ ← checkDecl cn es ident p
      discoverDecls cn es rest st'

/-- The loop in __init__ calling __discover_properties once per ancestor
class; each call first rejects a source that is not a mapping. -/
def discoverChain (cn : String) (source : Val) :
    List ContractClass → DiscSt → Except LazyErr DiscSt
  | [], st => .ok st
  | c :: rest, st =>
      match source with
      | .dict es => do
          let st' ← discoverDecls cn es c.decls st
          discoverChain cn source rest st'
      | v => .error (.validation cn "" (notDictMsg v))

/-- setattr(self, key, value): a declared property validates the value and
stores it in the instance dictionary under the property NAME (not the
identifier); any other key becomes a plain attribute stored raw. -/
def setAttrD (props : List (String × LazyProperty)) (d : List (String × Val))
    (key : String) (v : Val) : Except LazyErr (List (String × Val)) :=
  match lookupA props key with
  | some p => do
      let _ ← p.validate v
      .ok (insertA d p.name v)
  | .none => .ok (insertA d key v)

/-- The except-block of _populate_properties: re-wrap a failure from
deserialize into a validation error on the current contract, path "." +
key with any inner validation path appended, inner message preserved (for
a non-validation failure its str()). -/
def wrapExc (cn key : String) : LazyErr → LazyErr
  | .validation _ path msg => .validation cn ("." ++ key ++ path) msg
  | .contractError msg => .validation cn ("." ++ key) msg
  | .other msg => .validation cn ("." ++ key) msg

/-- One iteration of the _populate_properties loop: remap the key through
_mappings, skip or reject an undeclared key according to the policy flag,
deserialize a non-None value with error wrapping, then assign via setattr. -/
def popEntry (cn : String) (st : DiscSt) (ignore : Bool) (d : List (String × Val))
    (k : String) (v : Val) : Except LazyErr (List (String × Val)) :=
  let key := (lookupA st.mappings k).getD k
  match lookupA st.props key with
  | .none =>
      if ignore then .ok d
      else .error (.validation cn ("." ++ key) (invalidAttrMsg key))
  | some p => do
      let value ← if v = Val.none then pure v else
        match p.deserialize v with
        | .ok w => pure w
        | .error e => .error (wrapExc cn key e)
      setAttrD st.props d key value

/-- The loop of _populate_properties over the source items. -/
def populateList (cn : String) (st : DiscSt) (ignore : Bool) :
    List (String × Val) → List (String × Val) → Except LazyErr (List (String × Val))
  | [], d => .ok d
  | (k, v) :: rest, d => do
      let d' ← popEntry cn st ignore d k v
      populateList cn st ignore rest d'

/-- LazyContract._populate_properties: reject a non-mapping source, then
process its items. -/
def populateBase (cn : String) (st : DiscSt) (ignore : Bool) (source : Val)
    (d : List (String × Val)) : Except LazyErr (List (String × Val)) :=
  match source with
  | .dict es => populateList cn st ignore es d
  | v => .error (.validation cn "" (notDictMsg v))

/-- The second loop of DynamicContract._populate_properties: every key
matching neither a property identifier nor an external-name mapping is
attached raw via setattr. -/
def setExtras (st : DiscSt) : List (String × Val) → List (String × Val) →
    Except LazyErr (List (String × Val))
  | [], d => .ok d
  | (k, v) :: rest, d =>
      if (lookupA st.props k).isNone ∧ (lookupA st.mappings k).isNone then do
        let d' ← setAttrD st.props d k v
        setExtras st rest d'
      else setExtras st rest d

/-- DynamicContract._populate_properties: populate from the declared
subset of the source, then attach the remaining keys raw.  A non-mapping
source would hit obj.items() first and raise a plain AttributeError, but
discovery has already rejected that case whenever the chain is nonempty. -/
def populateDyn (cn : String) (st : DiscSt) (ignore : Bool) (source : Val)
    (d : List (String × Val)) : Except LazyErr (List (String × Val)) :=
  match source with
  | .dict es => do
      let contained := es.filter
        (fun kv => (lookupA st.props kv.1).isSome || (lookupA st.mappings kv.1).isSome)
      let d1 ← populateBase cn st ignore (Val.dict contained) d
      setExtras st es d1
  | _ => .error (.other "AttributeError: object has no attribute 'items'")

/-- A constructed contract instance: its type, the discovered _properties
and _mappings, and the instance __dict__ restricted to attribute storage. -/
structure Inst where
  ctype : ContractType
  props : List (String × LazyProperty)
  mappings : List (String × String)
  vals : List (String × Val)

/-- The shared tail of LazyContract.__init__ once the source mapping has
been chosen: discovery over the ancestor chain, then population. -/
def initFrom (t : ContractType) (source : Val) : Except LazyErr Inst := do
  let st ← discoverChain t.clsname source t.chain ⟨[], []⟩
  let d ← if t.dynamic then populateDyn t.clsname st t.ignoreUndefined source []
          else populateBase t.clsname st t.ignoreUndefined source []
  .ok ⟨t, st.props, st.mappings, d⟩

/-- LazyContract.__init__: providing both _obj and nonempty kwargs is a
LazyContractError; otherwise the source is (_obj or kwargs), so a falsy
_obj (None, 0, "", [], an empty dict) is replaced by the kwargs mapping. -/
def initContract (t : ContractType) (obj : Option Val) (kwargs : List (String × Val)) :
    Except LazyErr Inst :=
  match obj, kwargs with
  | some _, _ :: _ => .error (.contractError "both _obj and kwargs provided")
  | some v, [] => initFrom t (if v.truthy then v else Val.dict [])
  | .none, ks => initFrom t (Val.dict ks)

/-- LazyProperty.__get__ through a given descriptor: the stored value
under the property name, else the default; re-validated before returning. -/
def readProp (i : Inst) (p : LazyProperty) : Except LazyErr Val :=
  let v := (lookupA i.vals p.name).getD p.default
  (p.validate v).map (fun _ => v)

/-- getattr(instance, name): a declared identifier goes through its
descriptor; otherwise the plain attribute if stored (none models
AttributeError). -/
def getAttr (i : Inst) (name : String) : Except LazyErr (Option Val) :=
  match lookupA i.props name with
  | some p => (readProp i p).map some
  | .none => .ok (lookupA i.vals name)

/-- setattr(instance, key, value) on a built instance. -/
def Inst.setAttr (i : Inst) (key : String) (v : Val) : Except LazyErr Inst :=
  (setAttrD i.props i.vals key v).map (fun d => { i with vals := d })

/-- The test name.startswith("_") of to_dict; the marker is the single
character underscore, so this is a first-character check. -/
def beginsUnderscore (s : String) : Bool :=
  match s.data with
  | c :: _ => c == '_'
  | [] => false

/-- The dictionary comprehension of LazyContract.to_dict, iterating the
discovered properties in order. -/
def toDictAux (i : Inst) : List (String × LazyProperty) → List (String × Val) →
    Except LazyErr (List (String × Val))
  | [], acc => .ok acc
  | (_, p) :: rest, acc => do
      let v ← readProp i p
      let acc' := if ¬ beginsUnderscore p.name ∧ (v ≠ Val.none ∨ ¬ p.exclude_if_none)
        then insertA acc p.name (p.serialize v) else acc
      toDictAux i rest acc'

/-- LazyContract.to_dict. -/
def Inst.to_dict (i : Inst) : Except LazyErr (List (String × Val)) :=
  toDictAux i i.props []

/-- isinstance(other, type(self)) for contract instances under the
single-inheritance chains modelled here: the concrete class of sup occurs
in the chain of sub. -/
def isInstanceOf (sub sup : ContractType) : Bool :=
  (sub.chain.map ContractClass.cname).contains sup.clsname

/-- The zipped, short-circuiting comparison of property triples
(identifier, descriptor object, current value) performed by
LazyContract.__eq__; zip truncates at the shorter property list. -/
def triplesEq (a b : Inst) : List (String × LazyProperty) → List (String × LazyProperty) →
    Except LazyErr Bool
  | (n1, p1) :: t1, (n2, p2) :: t2 => do
      let v1 ← readProp a p1
      let v2 ← readProp b p2
      if n1 = n2 ∧ p1.pid = p2.pid ∧ v1 = v2 then triplesEq a b t1 t2 else .ok false
  | _, _ => .ok true

/-- LazyContract.__eq__ (the hierarchy never overrides it, so a == b
evaluates a.__eq__(b)). -/
def pyEq (a b : Inst) : Except LazyErr Bool :=
  if isInstanceOf b.ctype a.ctype then triplesEq a b a.props b.props else .ok false

/-- Modelled from the spec: a nested-contract property type (such as the
object property of the companion properties module, absent from src/) is
an external collaborator whose deserialize hook constructs an instance of
the nested contract type from the raw sub-structure, letting any failure
propagate to the enclosing contract for re-wrapping; its semantic type
accepts the constructed instance. -/
def contractProperty (pid : Nat) (bt : ContractType) : LazyProperty :=
  { pid := pid, clsName := "ObjectProperty", typeName := bt.clsname,
    typeCheck := Val.isDict,
    serialize := fun v => v,
    deserialize := fun v => (initContract bt (some v) []).map (fun i => Val.dict i.vals),
    name := defaultName, default := Val.none,
    required := false, not_none := false, exclude_if_none := true }

/-- A minimal concrete property in the style of the integer property of
the companion properties module: semantic type int, identity hooks. -/
def intProp (pid : Nat) (name : Option String) (required not_none exclude_if_none : Bool)
    (default : Val) : LazyProperty :=
  { pid := pid, clsName := "IntegerProperty", typeName := "<class 'int'>",
    typeCheck := fun v => match v with | .int _ => true | _ => false,
    serialize := fun v => v, deserialize := fun v => .ok v,
    name := name.getD defaultName, default := default,
    required := required, not_none := not_none, exclude_if_none := exclude_if_none }

theorem lookupA_insertA_self {α : Type} (l : List (String × α)) (k : String) (v : α) :
    lookupA (insertA l k v) k = some v := by
  induction l with
  | nil => simp [insertA, lookupA]
  | cons h t ih =>
      obtain ⟨k', w⟩ := h
      by_cases hk : k' = k
      · subst hk; simp [insertA, lookupA]
      · simp [insertA, lookupA, hk, ih]

theorem lookupA_insertA_ne {α : Type} (l : List (String × α)) (k k' : String) (v : α)
    (h : k ≠ k') : lookupA (insertA l k v) k' = lookupA l k' := by
  induction l with
  | nil => simp [insertA, lookupA, h]
  | cons hd t ih =>
      obtain ⟨k0, w⟩ := hd
      by_cases hk : k0 = k
      · subst hk; simp [insertA, lookupA, h]
      · simp [insertA, lookupA, hk, ih]

theorem insertA_fresh {α : Type} (l : List (String × α)) (k : String) (v : α)
    (h : keyIn l k = false) : insertA l k v = l ++ [(k, v)] := by
  induction l with
  | nil => simp [insertA]
  | cons hd t ih =>
      obtain ⟨k0, w⟩ := hd
      simp only [keyIn, lookupA] at h
      by_cases hk : k0 = k
      · simp [hk] at h
      · simp only [insertA, hk, if_false]
        simp only [keyIn] at ih
        simp [ih (by simpa [hk] using h)]

theorem lookupA_append_left {α : Type} (l m : List (String × α)) (k : String)
    (h : keyIn l k = true) : lookupA (l ++ m) k = lookupA l k := by
  induction l with
  | nil => simp [keyIn, lookupA] at h
  | cons hd t ih =>
      obtain ⟨k0, w⟩ := hd
      by_cases hk : k0 = k
      · simp [lookupA, hk]
      · simp only [keyIn, lookupA, hk, if_false] at h
        simp [lookupA, hk, ih h]

theorem lookupA_append_right {α : Type} (l m : List (String × α)) (k : String)
    (h : keyIn l k = false) : lookupA (l ++ m) k = lookupA m k := by
  induction l with
  | nil => simp
  | cons hd t ih =>
      obtain ⟨k0, w⟩ := hd
      simp only [keyIn, lookupA] at h
      by_cases hk : k0 = k
      · simp [hk] at h
      · simp only [keyIn] at ih
        simp [lookupA, hk, ih (by simpa [hk] using h)]

/-- Folding registerDecl over a declaration list, the pure accumulation
that discovery performs when no check fails. -/
def regAll (st : DiscSt) : List (String × LazyProperty) → DiscSt
  | [] => st
  | (i, p) :: rest => regAll (registerDecl st i p) rest

theorem regAll_append (st : DiscSt) (a b : List (String × LazyProperty)) :
    regAll st (a ++ b) = regAll (regAll st a) b := by
  induction a generalizing st with
  | nil => rfl
  | cons hd t ih => obtain ⟨i, p⟩ := hd; simp [regAll, ih]

/-- All declared fields from the ancestor chain, in discovery order. -/
def flatDecls : List ContractClass → List (String × LazyProperty)
  | [] => []
  | c :: t => c.decls ++ flatDecls t


/-- Success of one discovery check does not depend on the contract class
name, which only enters the error message. -/
theorem checkDecl_ok_any (c1 c2 : String) (es : List (String × Val)) (i : String)
    (p : LazyProperty) (h : checkDecl c1 es i p = .ok ()) :
    checkDecl c2 es i p = .ok () := by
  unfold checkDecl at h ⊢
  split_ifs at h ⊢ <;> simp_all

/-- The first failing discovery check over a list of declarations, if any;
discovery fails with exactly this error. -/
def firstCheckErr (cn : String) (es : List (String × Val)) :
    List (String × LazyProperty) → Option LazyErr
  | [] => Option.none
  | d :: t =>
      match checkDecl cn es d.1 d.2 with
      | .ok _ => firstCheckErr cn es t
      | .error e => some e

theorem firstCheckErr_append (cn : String) (es : List (String × Val))
    (a b : List (String × LazyProperty)) :
    firstCheckErr cn es (a ++ b) =
      match firstCheckErr cn es a with
      | some e => some e
      | Option.none => firstCheckErr cn es b := by
  induction a with
  | nil => simp [firstCheckErr]
  | cons d t ih =>
      simp only [List.cons_append, firstCheckErr]
      cases checkDecl cn es d.1 d.2 <;> simp [ih]

/-- discoverDecls is exactly: the first failing check, or the pure
registration fold. -/
theorem discoverDecls_eq (cn : String) (es : List (String × Val))
    (ds : List (String × LazyProperty)) (st : DiscSt) :
    discoverDecls cn es ds st =
      match firstCheckErr cn es ds with
      | some e => .error e
      | Option.none => .ok (regAll st ds) := by
  induction ds generalizing st with
  | nil => simp [discoverDecls, firstCheckErr, regAll]
  | cons d t ih =>
      obtain ⟨i, p⟩ := d
      simp only [discoverDecls, firstCheckErr, bind, Except.bind]
      cases checkDecl cn es i p with
      | error e => simp
      | ok u => simp [ih, regAll]

/-- discoverChain on a mapping source is exactly: the first failing check
over the flattened declaration list, or the registration fold. -/
theorem discoverChain_eq (cn : String) (es : List (String × Val))
    (cs : List ContractClass) (st : DiscSt) :
    discoverChain cn (Val.dict es) cs st =
      match firstCheckErr cn es (flatDecls cs) with
      | some e => .error e
      | Option.none => .ok (regAll st (flatDecls cs)) := by
  induction cs generalizing st with
  | nil => simp [discoverChain, flatDecls, firstCheckErr, regAll]
  | cons c t ih =>
      simp only [discoverChain, flatDecls, bind, Except.bind]
      rw [discoverDecls_eq, firstCheckErr_append]
      cases h : firstCheckErr cn es c.decls with
      | none => simp [ih, regAll_append]
      | some e => simp

theorem firstCheckErr_none_of (cn : String) (es : List (String × Val))
    (ds : List (String × LazyProperty))
    (h : ∀ d ∈ ds, checkDecl cn es d.1 d.2 = .ok ()) :
    firstCheckErr cn es ds = Option.none := by
  induction ds with
  | nil => rfl
  | cons d t ih =>
      simp only [firstCheckErr, h d (by simp)]
      exact ih (fun d hd => h d (by simp [hd]))

theorem firstCheckErr_none_elim (cn : String) (es : List (String × Val))
    (ds : List (String × LazyProperty))
    (h : firstCheckErr cn es ds = Option.none) :
    ∀ d ∈ ds, checkDecl cn es d.1 d.2 = .ok () := by
  induction ds with
  | nil => simp
  | cons d t ih =>
      simp only [firstCheckErr] at h
      intro d' hd'
      cases hc : checkDecl cn es d.1 d.2 with
      | error e => rw [hc] at h; exact absurd h (by simp)
      | ok u =>
          rw [hc] at h
          rcases List.mem_cons.mp hd' with he | ht
          · subst he; cases u; exact hc
          · exact ih h d' ht

theorem firstCheckErr_split (cn : String) (es : List (String × Val))
    (pre post : List (String × LazyProperty)) (i : String) (p : LazyProperty)
    (e : LazyErr)
    (hpre : ∀ d ∈ pre, checkDecl cn es d.1 d.2 = .ok ())
    (he : checkDecl cn es i p = .error e) :
    firstCheckErr cn es (pre ++ (i, p) :: post) = some e := by
  rw [firstCheckErr_append, firstCheckErr_none_of cn es pre hpre]
  simp [firstCheckErr, he]

/-- The choice of source in LazyContract.__init__ collapses for an _obj
that is itself a mapping: an empty mapping is falsy and gets replaced by
the empty kwargs mapping, which is the same value. -/
theorem initContract_dict (t : ContractType) (es : List (String × Val)) :
    initContract t (some (Val.dict es)) [] = initFrom t (Val.dict es) := by
  cases es <;> rfl

theorem resolved_required (p : LazyProperty) (i : String) :
    (p.resolved i).required = p.required := by
  unfold LazyProperty.resolved; split <;> rfl

/-- Helper: a required declared field whose resolved name and identifier
are both absent makes its own discovery check fail with the REQUIRED
error. -/
theorem checkDecl_required_err (cn : String) (es : List (String × Val))
    (i : String) (p : LazyProperty) (hreq : p.required = true)
    (hn : keyIn es (p.resolved i).name = false) (hi : keyIn es i = false) :
    checkDecl cn es i p =
      .error (.validation cn ""
        (requiredMsg (p.resolved i).name (Val.pyRepr (Val.dict es)))) := by
  unfold checkDecl
  rw [hn, hi]
  simp [resolved_required, hreq]

/-- Helper: construction from a mapping fails outright whenever any
declared field of the chain fails its discovery check. -/
theorem init_discover_fail (t : ContractType) (es : List (String × Val))
    (d : String × LazyProperty) (hd : d ∈ flatDecls t.chain) (e0 : LazyErr)
    (he : checkDecl t.clsname es d.1 d.2 = .error e0) :
    ∃ e, initContract t (some (Val.dict es)) [] = .error e := by
  obtain ⟨e, hfe⟩ : ∃ e, firstCheckErr t.clsname es (flatDecls t.chain) = some e := by
    cases h : firstCheckErr t.clsname es (flatDecls t.chain) with
    | some e => exact ⟨e, rfl⟩
    | none =>
        have := firstCheckErr_none_elim _ _ _ h d hd
        rw [he] at this
        exact absurd this (by simp)
  refine ⟨e, ?_⟩
  rw [initContract_dict]
  simp only [initFrom, bind, Except.bind, discoverChain_eq, hfe]

/-- Helper: when every discovery check before a required-but-absent field
passes, construction fails with exactly the REQUIRED error naming it. -/
theorem init_required_error (t : ContractType) (es : List (String × Val))
    (pre post : List (String × LazyProperty)) (i : String) (p : LazyProperty)
    (hsplit : flatDecls t.chain = pre ++ (i, p) :: post)
    (hpre : ∀ d ∈ pre, checkDecl t.clsname es d.1 d.2 = .ok ())
    (hreq : p.required = true)
    (hn : keyIn es (p.resolved i).name = false) (hi : keyIn es i = false) :
    initContract t (some (Val.dict es)) [] =
      .error (.validation t.clsname ""
        (requiredMsg (p.resolved i).name (Val.pyRepr (Val.dict es)))) := by
  have hfe := firstCheckErr_split t.clsname es pre post i p _ hpre
    (checkDecl_required_err t.clsname es i p hreq hn hi)
  rw [initContract_dict]
  simp only [initFrom, bind, Except.bind, discoverChain_eq, hsplit, hfe]

/-- A lenient contract class E with a single optional integer field x. -/
def cOne : ContractType :=
  ⟨[⟨"E", [("x", intProp 1 Option.none false false true Val.none)]⟩], true, false⟩

/-- Extract the instance from a successful construction (dummy fallback on
error); used only to state concrete examples. -/
def forceInst (r : Except LazyErr Inst) : Inst :=
  match r with
  | .ok i => i
  | .error _ => ⟨⟨[], true, false⟩, [], [], []⟩

/-- C5: for every combination of the other descriptor options,
constructing a property descriptor with required set and a non-null
default fails with the configuration error (a LazyContractError, not a
validation error), independent of the other flags. -/
theorem lazyProperty_required_default_conflict
    (pid : Nat) (clsName typeName : String) (typeCheck : Val → Bool)
    (ser : Val → Val) (deser : Val → Except LazyErr Val) (name : Option String)
    (default : Val) (not_none exclude_if_none : Bool) (hd : default ≠ Val.none) :
    LazyProperty.make pid clsName typeName typeCheck ser deser name default true
      not_none exclude_if_none =
      .error (.contractError "default specified for required property") := by
  simp [LazyProperty.make, hd]

theorem lazyProperty_required_default_conflict_witness :
    (Val.int 3 ≠ Val.none) ∧
    LazyProperty.make 0 "LazyProperty" "<class 'NoneType'>" (fun _ => false)
      (fun v => v) (fun v => .ok v) Option.none (Val.int 3) true false true =
      .error (.contractError "default specified for required property") :=
  ⟨by decide,
   lazyProperty_required_default_conflict 0 "LazyProperty" "<class 'NoneType'>"
     (fun _ => false) (fun v => v) (fun v => .ok v) Option.none (Val.int 3)
     false true (by decide)⟩

/-- C6: supplying both a source object and named field arguments to the
constructor always fails with the configuration error, for every contract
type, every source value and every nonempty keyword list, regardless of
whether they agree. -/
theorem init_obj_and_kwargs_conflict (t : ContractType) (v : Val)
    (kv : String × Val) (kvs : List (String × Val)) :
    initContract t (some v) (kv :: kvs) =
      .error (.contractError "both _obj and kwargs provided") := rfl

/-- C7 counterexample: the falsy non-mapping source 0 does NOT fail
construction; the expression (_obj or kwargs) silently replaces it by the
empty keyword mapping and the contract is built successfully. -/
theorem falsy_nonmapping_source_accepted :
    Val.isDict (Val.int 0) = false ∧
    initContract cOne (some (Val.int 0)) [] =
      .ok (forceInst (initContract cOne (some (Val.int 0)) [])) ∧
    (forceInst (initContract cOne (some (Val.int 0)) [])).vals = [] :=
  ⟨rfl, rfl, rfl⟩

/-- C7 (amended): every TRUTHY non-mapping source value fails
construction with the ValidationError stating the value is not a
dictionary (raised by the per-class discovery pass); a falsy non-mapping
source is instead replaced by the empty keyword mapping. -/
theorem truthy_nonmapping_source_rejected (t : ContractType) (v : Val)
    (hchain : t.chain ≠ []) (htr : v.truthy = true) (hnd : v.isDict = false) :
    initContract t (some v) [] =
      .error (.validation t.clsname "" (notDictMsg v)) := by
  obtain ⟨c, rest, hc⟩ : ∃ c rest, t.chain = c :: rest := by
    cases h : t.chain with
    | nil => exact absurd h hchain
    | cons c rest => exact ⟨c, rest, rfl⟩
  cases v
  case dict xs => simp [Val.isDict] at hnd
  all_goals
    simp [initContract, initFrom, htr, hc, discoverChain, bind, Except.bind]

theorem truthy_nonmapping_source_rejected_witness :
    cOne.chain ≠ [] ∧ (Val.int 5).truthy = true ∧ (Val.int 5).isDict = false ∧
    initContract cOne (some (Val.int 5)) [] =
      .error (.validation cOne.clsname "" (notDictMsg (Val.int 5))) :=
  ⟨by simp [cOne], rfl, rfl,
   truthy_nonmapping_source_rejected cOne (Val.int 5) (by simp [cOne]) rfl rfl⟩

/-- A contract class T2 with two required integer fields a and b, in that
declaration order. -/
def cTwoRequired : ContractType :=
  ⟨[⟨"T2", [("a", intProp 1 Option.none true false true Val.none),
            ("b", intProp 2 Option.none true false true Val.none)]⟩], true, false⟩

/-- C4 counterexample: the empty source lacks both names of the required
field b, yet the raised REQUIRED error names field a (the first required
field in discovery order), not b. -/
theorem required_error_names_other_field :
    initContract cTwoRequired (some (Val.dict [])) [] =
      .error (.validation "T2" "" (requiredMsg "a" "\x7b\x7d")) ∧
    requiredMsg "a" "\x7b\x7d" ≠ requiredMsg "b" "\x7b\x7d" :=
  ⟨rfl, by decide⟩

/-- C4 (amended): constructing from a mapping lacking both names of a
required no-default field always fails with SOME validation error and no
instance is produced; the error is the REQUIRED error naming that field
exactly when every field declared before it passes its discovery check. -/
theorem required_absent_field_fails
    (t : ContractType) (es : List (String × Val))
    (pre post : List (String × LazyProperty)) (i : String) (p : LazyProperty)
    (hsplit : flatDecls t.chain = pre ++ (i, p) :: post)
    (hreq : p.required = true)
    (hn : keyIn es (p.resolved i).name = false)
    (hi : keyIn es i = false) :
    (∃ e, initContract t (some (Val.dict es)) [] = .error e) ∧
    ((∀ d ∈ pre, checkDecl t.clsname es d.1 d.2 = .ok ()) →
      initContract t (some (Val.dict es)) [] =
        .error (.validation t.clsname ""
          (requiredMsg (p.resolved i).name (Val.pyRepr (Val.dict es))))) := by
  constructor
  · exact init_discover_fail t es (i, p) (hsplit ▸ by simp) _
      (checkDecl_required_err t.clsname es i p hreq hn hi)
  · intro hpre
    exact init_required_error t es pre post i p hsplit hpre hreq hn hi

/-- A contract class T with a single required integer field r. -/
def cReq : ContractType :=
  ⟨[⟨"T", [("r", intProp 1 Option.none true false true Val.none)]⟩], true, false⟩

theorem required_absent_field_fails_witness :
    (∃ e, initContract cReq (some (Val.dict [])) [] = .error e) ∧
    ((∀ d ∈ ([] : List (String × LazyProperty)),
        checkDecl cReq.clsname [] d.1 d.2 = .ok ()) →
      initContract cReq (some (Val.dict [])) [] =
        .error (.validation cReq.clsname ""
          (requiredMsg ((intProp 1 Option.none true false true Val.none).resolved "r").name
            (Val.pyRepr (Val.dict []))))) :=
  required_absent_field_fails cReq [] [] []
    "r" (intProp 1 Option.none true false true Val.none) rfl rfl rfl rfl

/-- Nested contract class B with a single required integer field z. -/
def cInner : ContractType :=
  ⟨[⟨"B", [("z", intProp 2 Option.none true false true Val.none)]⟩], true, false⟩

/-- Outer contract class A with field bField of nested contract type B. -/
def cOuter : ContractType :=
  ⟨[⟨"A", [("bField", contractProperty 3 cInner)]⟩], true, false⟩

/-- C3 counterexample: with required z absent from the nested
sub-mapping, the error path is just .bField and NOT .bField.z: the inner
REQUIRED error carries an empty path, so the enclosing contract has
nothing to append; only the message names z. -/
theorem nested_required_path_shallow :
    initContract cOuter (some (Val.dict [("bField", Val.dict [])])) [] =
      .error (.validation "A" ".bField" (requiredMsg "z" "\x7b\x7d")) ∧
    ".bField" ≠ ".bField.z" :=
  ⟨rfl, by decide⟩

theorem resolved_deserialize (p : LazyProperty) (i : String) :
    (p.resolved i).deserialize = p.deserialize := by
  unfold LazyProperty.resolved; split <;> rfl

/-- Helper: a declaration whose identifier occurs in the source passes
its discovery check outright. -/
theorem checkDecl_ok_of_present (cn : String) (es : List (String × Val))
    (i : String) (p : LazyProperty) (h : keyIn es i = true) :
    checkDecl cn es i p = .ok () := by
  unfold checkDecl
  rw [if_pos (Or.inr h)]

/-- Helper: a populate step whose deserialize hook fails produces exactly
the re-wrapped validation error. -/
theorem popEntry_deserialize_error (cn : String) (st : DiscSt) (ig : Bool)
    (d : List (String × Val)) (k : String) (v : Val) (p : LazyProperty) (e : LazyErr)
    (hm : lookupA st.mappings k = Option.none)
    (hp : lookupA st.props k = some p)
    (hv : ¬ v = Val.none)
    (he : p.deserialize v = .error e) :
    popEntry cn st ig d k v = .error (wrapExc cn k e) := by
  simp only [popEntry, hm, Option.getD, hp, bind, Except.bind, if_neg hv, he]

/-- C3 (amended): for an outer contract with a field of nested contract
type, when the nested contract has a required field z absent from the
sub-mapping (all checks before z passing), construction of the outer
contract fails with a ValidationError whose path is "." + key only — the
inner REQUIRED error has an empty path, so there is nothing to append and
the fully qualified leaf does not show — while the inner message, which
names z, is preserved. -/
theorem nested_required_error_path
    (an bf : String) (pid : Nat) (bt : ContractType) (sub : List (String × Val))
    (pre post : List (String × LazyProperty)) (z : String) (q : LazyProperty)
    (hsplit : flatDecls bt.chain = pre ++ (z, q) :: post)
    (hpre : ∀ d ∈ pre, checkDecl bt.clsname sub d.1 d.2 = .ok ())
    (hreq : q.required = true)
    (hn : keyIn sub (q.resolved z).name = false)
    (hz : keyIn sub z = false) :
    initContract ⟨[⟨an, [(bf, contractProperty pid bt)]⟩], true, false⟩
        (some (Val.dict [(bf, Val.dict sub)])) [] =
      .error (.validation an ("." ++ bf)
        (requiredMsg (q.resolved z).name (Val.pyRepr (Val.dict sub)))) := by
  have hinner := init_required_error bt sub pre post z q hsplit hpre hreq hn hz
  have hkey : keyIn [(bf, Val.dict sub)] bf = true := by simp [keyIn, lookupA]
  have hck := checkDecl_ok_of_present an [(bf, Val.dict sub)] bf
    (contractProperty pid bt) hkey
  have hfe : firstCheckErr an [(bf, Val.dict sub)]
      [(bf, contractProperty pid bt)] = Option.none := by
    simp [firstCheckErr, hck]
  have hcls : (⟨[⟨an, [(bf, contractProperty pid bt)]⟩], true, false⟩ :
      ContractType).clsname = an := rfl
  rw [initContract_dict]
  simp only [initFrom, bind, Except.bind, hcls]
  rw [discoverChain_eq]
  have hflat : flatDecls [⟨an, [(bf, contractProperty pid bt)]⟩]
      = [(bf, contractProperty pid bt)] := by simp [flatDecls]
  rw [hflat, hfe]
  have hreg : regAll ⟨[], []⟩ [(bf, contractProperty pid bt)] =
      ⟨[(bf, (contractProperty pid bt).resolved bf)], []⟩ := rfl
  simp only [hreg]
  have hpop : popEntry an ⟨[(bf, (contractProperty pid bt).resolved bf)], []⟩ true
      [] bf (Val.dict sub) =
      .error (wrapExc an bf
        (.validation bt.clsname ""
          (requiredMsg (q.resolved z).name (Val.pyRepr (Val.dict sub))))) := by
    refine popEntry_deserialize_error an _ true [] bf (Val.dict sub)
      ((contractProperty pid bt).resolved bf) _ rfl ?_ ?_ ?_
    · simp [lookupA]
    · simp
    · rw [resolved_deserialize]
      show Except.map _ (initContract bt (some (Val.dict sub)) []) = _
      rw [hinner]
      rfl
  simp only [populateBase, populateList, hpop, bind, Except.bind]
  simp [wrapExc, String.append_empty]

theorem nested_required_error_path_witness :
    initContract ⟨[⟨"A", [("bField", contractProperty 3 cInner)]⟩], true, false⟩
        (some (Val.dict [("bField", Val.dict [])])) [] =
      .error (.validation "A" (String.append "." "bField")
        (requiredMsg ((intProp 2 Option.none true false true Val.none).resolved "z").name
          (Val.pyRepr (Val.dict [])))) :=
  nested_required_error_path "A" "bField" 3 cInner [] [] []
    "z" (intProp 2 Option.none true false true Val.none) rfl (by simp) rfl rfl rfl

/-- C2: policy trichotomy for the undeclared key x with value 1, for
every declaration list ds that neither declares x nor maps the external
name x, provided all declared fields pass discovery against the source.
Strict: fails with the ValidationError whose path names x.  Lenient
(default): succeeds with an instance storing nothing, and reading x is an
attribute miss (no trace).  Dynamic: succeeds, stores the raw 1 under x,
and reading attribute x returns 1 unchanged. -/
theorem undeclared_key_trichotomy (sn ln dn : String)
    (ds : List (String × LazyProperty))
    (hok : ∀ d ∈ ds, checkDecl sn [("x", Val.int 1)] d.1 d.2 = .ok ())
    (hp : lookupA (regAll ⟨[], []⟩ ds).props "x" = Option.none)
    (hm : lookupA (regAll ⟨[], []⟩ ds).mappings "x" = Option.none) :
    initContract ⟨[⟨"StrictContract", []⟩, ⟨sn, ds⟩], false, false⟩
        (some (Val.dict [("x", Val.int 1)])) [] =
      .error (.validation sn ".x" (invalidAttrMsg "x")) ∧
    initContract ⟨[⟨ln, ds⟩], true, false⟩
        (some (Val.dict [("x", Val.int 1)])) [] =
      .ok ⟨⟨[⟨ln, ds⟩], true, false⟩,
           (regAll ⟨[], []⟩ ds).props, (regAll ⟨[], []⟩ ds).mappings, []⟩ ∧
    getAttr ⟨⟨[⟨ln, ds⟩], true, false⟩,
      (regAll ⟨[], []⟩ ds).props, (regAll ⟨[], []⟩ ds).mappings, []⟩ "x" =
      .ok Option.none ∧
    initContract ⟨[⟨"DynamicContract", []⟩, ⟨dn, ds⟩], true, true⟩
        (some (Val.dict [("x", Val.int 1)])) [] =
      .ok ⟨⟨[⟨"DynamicContract", []⟩, ⟨dn, ds⟩], true, true⟩,
           (regAll ⟨[], []⟩ ds).props, (regAll ⟨[], []⟩ ds).mappings,
           [("x", Val.int 1)]⟩ ∧
    getAttr ⟨⟨[⟨"DynamicContract", []⟩, ⟨dn, ds⟩], true, true⟩,
      (regAll ⟨[], []⟩ ds).props, (regAll ⟨[], []⟩ ds).mappings,
      [("x", Val.int 1)]⟩ "x" = .ok (some (Val.int 1)) := by
  have hfe : ∀ cn, firstCheckErr cn [("x", Val.int 1)] ds = Option.none := by
    intro cn
    exact firstCheckErr_none_of cn _ ds
      (fun d hd => checkDecl_ok_any sn cn _ d.1 d.2 (hok d hd))
  refine ⟨?_, ?_, ?_, ?_, ?_⟩
  · -- Strict
    rw [initContract_dict]
    simp only [initFrom, bind, Except.bind]
    rw [discoverChain_eq]
    have hflat : flatDecls [⟨"StrictContract", ([] : List (String × LazyProperty))⟩,
        ⟨sn, ds⟩] = ds := by simp [flatDecls]
    rw [hflat, hfe]
    have hcls : (⟨[⟨"StrictContract", []⟩, ⟨sn, ds⟩], false, false⟩ :
        ContractType).clsname = sn := rfl
    simp only [populateBase, populateList, popEntry, hm, hp, Option.getD,
      Bool.false_eq_true, if_false, bind, Except.bind]
    rw [hcls]
    rfl
  · -- Lenient: construction
    rw [initContract_dict]
    simp only [initFrom, bind, Except.bind]
    rw [discoverChain_eq]
    have hflat : flatDecls [⟨ln, ds⟩] = ds := by simp [flatDecls]
    rw [hflat, hfe]
    simp only [populateBase, populateList, popEntry, hm, hp, Option.getD,
      if_true, bind, Except.bind]
    rfl
  · -- Lenient: no trace of x
    simp only [getAttr, hp, lookupA]
  · -- Dynamic: construction
    rw [initContract_dict]
    simp only [initFrom, bind, Except.bind]
    rw [discoverChain_eq]
    have hflat : flatDecls [⟨"DynamicContract", ([] : List (String × LazyProperty))⟩,
        ⟨dn, ds⟩] = ds := by simp [flatDecls]
    rw [hflat, hfe]
    simp only [populateDyn, List.filter, hp, hm, Option.isSome_none, Bool.or_false,
      populateBase, populateList, bind, Except.bind, setExtras, Option.isNone_none,
      setAttrD, hp, insertA, and_self, if_true]
  · -- Dynamic: attribute x is the raw 1
    simp only [getAttr, hp, lookupA, if_pos rfl]
    rfl

/-- Declaration list with one optional integer field a. -/
def declsA : List (String × LazyProperty) :=
  [("a", intProp 1 Option.none false false true Val.none)]

theorem undeclared_key_trichotomy_witness :
    initContract ⟨[⟨"StrictContract", []⟩, ⟨"S", declsA⟩], false, false⟩
        (some (Val.dict [("x", Val.int 1)])) [] =
      .error (.validation "S" ".x" (invalidAttrMsg "x")) :=
  (undeclared_key_trichotomy "S" "L" "D" declsA
    (by intro d hd
        simp only [declsA, List.mem_singleton] at hd
        subst hd
        rfl)
    rfl rfl).1

theorem toDictAux_append (i : Inst) (l1 l2 : List (String × LazyProperty))
    (acc : List (String × Val)) :
    toDictAux i (l1 ++ l2) acc =
      match toDictAux i l1 acc with
      | .ok acc' => toDictAux i l2 acc'
      | .error e => .error e := by
  induction l1 generalizing acc with
  | nil => simp [toDictAux]
  | cons hd t ih =>
      obtain ⟨m, q⟩ := hd
      simp only [List.cons_append, toDictAux, bind, Except.bind]
      cases readProp i q with
      | error e => simp
      | ok v => simp [ih]

/-- Helper: a property name contributed by no element of the remaining
iteration keeps its (non-)binding in the accumulator. -/
theorem toDictAux_preserve (i : Inst) (l : List (String × LazyProperty))
    (acc d : List (String × Val)) (n : String)
    (hrun : toDictAux i l acc = .ok d)
    (hl : ∀ q ∈ l, q.2.name ≠ n) :
    lookupA d n = lookupA acc n := by
  induction l generalizing acc with
  | nil => simp only [toDictAux] at hrun; cases hrun; rfl
  | cons hd t ih =>
      obtain ⟨m, q⟩ := hd
      cases hv : readProp i q with
      | error e =>
          simp only [toDictAux, bind, Except.bind, hv] at hrun
          exact absurd hrun (by simp)
      | ok v =>
          simp only [toDictAux, bind, Except.bind, hv] at hrun
          have hqn : q.name ≠ n := hl (m, q) (by simp)
          split at hrun
          · rw [ih _ hrun (fun q hq => hl q (by simp [hq])),
              lookupA_insertA_ne _ _ _ _ hqn]
          · exact ih _ hrun (fun q hq => hl q (by simp [hq]))

/-- Helper: a name whose only contributors hold a None value with
exclusion enabled never enters the result of to_dict. -/
theorem toDictAux_not_key (i : Inst) (l : List (String × LazyProperty))
    (acc d : List (String × Val)) (n : String)
    (hrun : toDictAux i l acc = .ok d)
    (hacc : keyIn acc n = false)
    (hl : ∀ q ∈ l, q.2.name = n →
      readProp i q.2 = .ok Val.none ∧ q.2.exclude_if_none = true) :
    keyIn d n = false := by
  induction l generalizing acc with
  | nil => simp only [toDictAux] at hrun; cases hrun; exact hacc
  | cons hd t ih =>
      obtain ⟨m, q⟩ := hd
      cases hv : readProp i q with
      | error e =>
          simp only [toDictAux, bind, Except.bind, hv] at hrun
          exact absurd hrun (by simp)
      | ok v =>
          simp only [toDictAux, bind, Except.bind, hv] at hrun
          by_cases hqn : q.name = n
          · obtain ⟨hread, hexc⟩ := hl (m, q) (by simp) hqn
            rw [hv] at hread
            have hvn : v = Val.none := by cases hread; rfl
            rw [if_neg (by simp [hvn]; exact fun _ => hexc)] at hrun
            exact ih _ hrun hacc (fun q hq => hl q (by simp [hq]))
          · have hstep : ∀ acc', toDictAux i t acc' = .ok d →
                keyIn acc' n = false → keyIn d n = false := fun acc' hr ha =>
              ih _ hr ha (by
                intro q hq
                exact hl q (by simp [hq]))
            split at hrun
            · exact hstep _ hrun (by
                simp only [keyIn] at hacc ⊢
                rw [lookupA_insertA_ne _ _ _ _ hqn]
                exact hacc)
            · exact hstep _ hrun hacc

/-- Contract class P with field x whose external name is the private
name _x and whose exclude_if_none flag is cleared. -/
def cPriv : ContractType :=
  ⟨[⟨"P", [("x", intProp 1 (some "_x") false false false Val.none)]⟩], true, false⟩

/-- C8 counterexample: a field whose current value is None and whose
exclude_if_none is false is claimed to appear in to_dict under its
external name with a null value; with external name _x it does NOT — the
private-name filter drops it and to_dict returns the empty mapping, even
though the attribute reads back as None. -/
theorem excludeIfNone_false_private_name_absent :
    initContract cPriv (some (Val.dict [("_x", Val.none)])) [] =
      .ok (forceInst (initContract cPriv (some (Val.dict [("_x", Val.none)])) [])) ∧
    getAttr (forceInst (initContract cPriv (some (Val.dict [("_x", Val.none)])) [])) "x" =
      .ok (some Val.none) ∧
    Inst.to_dict (forceInst (initContract cPriv (some (Val.dict [("_x", Val.none)])) [])) =
      .ok [] :=
  ⟨rfl, rfl, rfl⟩

/-- C8 (amended): on any instance whose declared external names are
pairwise distinct, a declared field whose current value reads as None and
whose exclude_if_none is true (the default) is absent from the mapping
returned by to_dict; with exclude_if_none false it appears under its
external name with the null value, PROVIDED the external name does not
begin with the private marker (and the serialize hook maps None to None,
as the default identity hook does). -/
theorem to_dict_none_handling (i : Inst) (ident : String) (p : LazyProperty)
    (d : List (String × Val))
    (hmem : (ident, p) ∈ i.props)
    (hnodup : (i.props.map (fun ip => ip.2.name)).Nodup)
    (hread : readProp i p = .ok Val.none)
    (hrun : Inst.to_dict i = .ok d) :
    (p.exclude_if_none = true → keyIn d p.name = false) ∧
    (p.exclude_if_none = false → beginsUnderscore p.name = false →
      p.serialize Val.none = Val.none → lookupA d p.name = some Val.none) := by
  constructor
  · intro hexc
    refine toDictAux_not_key i i.props [] d p.name hrun rfl ?_
    intro q hq hqn
    have : (ident, p) = q :=
      List.inj_on_of_nodup_map hnodup hmem hq (by simpa using hqn.symm)
    rw [← this]
    exact ⟨hread, hexc⟩
  · intro hexc hund hser
    obtain ⟨pre, post, hsplit⟩ := List.append_of_mem hmem
    have hnodup' : (pre.map (fun ip => ip.2.name) ++
        p.name :: post.map (fun ip => ip.2.name)).Nodup := by
      rw [hsplit] at hnodup
      simpa using hnodup
    obtain ⟨hn1, hn2, hdisj⟩ := List.nodup_append.mp hnodup'
    have hnames : (∀ q ∈ pre, q.2.name ≠ p.name) ∧ ∀ q ∈ post, q.2.name ≠ p.name := by
      constructor
      · intro q hq he
        exact hdisj (List.mem_map_of_mem _ hq) (by simp [he])
      · intro q hq he
        exact (List.nodup_cons.mp hn2).1
          (he ▸ List.mem_map_of_mem (fun ip => ip.2.name) hq)
    unfold Inst.to_dict at hrun
    rw [hsplit, toDictAux_append] at hrun
    cases hpre : toDictAux i pre [] with
    | error e => rw [hpre] at hrun; exact absurd hrun (by simp)
    | ok acc1 =>
        rw [hpre] at hrun
        simp only [toDictAux, bind, Except.bind, hread] at hrun
        rw [if_pos (by simp [hund, hexc])] at hrun
        rw [toDictAux_preserve i post _ d p.name hrun hnames.2, hser,
          lookupA_insertA_self]

theorem getLastD_mem {α : Type} (l : List α) (d : α) (h : l ≠ []) :
    l.getLastD d ∈ l := by
  induction l generalizing d with
  | nil => exact absurd rfl h
  | cons a t ih =>
      cases t with
      | nil => simp [List.getLastD]
      | cons b u =>
          rw [List.getLastD_cons]
          exact List.mem_cons_of_mem a (ih a (by simp))

/-- isinstance is reflexive for a contract type with a nonempty chain:
its own concrete class name occurs in its chain. -/
theorem isInstanceOf_refl (t : ContractType) (h : t.chain ≠ []) :
    isInstanceOf t t = true := by
  unfold isInstanceOf ContractType.clsname
  have : (t.chain.map ContractClass.cname).getLastD "LazyContract"
      ∈ t.chain.map ContractClass.cname :=
    getLastD_mem _ _ (by simpa using h)
  simpa [List.elem_iff] using this

/-- Reading every declared property of an instance in discovery order,
as __iter_properties does. -/
def readAllAux (i : Inst) : List (String × LazyProperty) → Except LazyErr (List Val)
  | [] => .ok []
  | (_, p) :: t => do
      let v ← readProp i p
      let vs ← readAllAux i t
      .ok (v :: vs)

def Inst.readAll (i : Inst) : Except LazyErr (List Val) := readAllAux i i.props

/-- Helper: over one shared property list, the zipped triple comparison
succeeds and decides exactly pointwise equality of the two value lists. -/
theorem triplesEq_same (a b : Inst) (l : List (String × LazyProperty))
    (va vb : List Val)
    (ha : readAllAux a l = .ok va) (hb : readAllAux b l = .ok vb) :
    triplesEq a b l l = .ok true ↔ va = vb := by
  induction l generalizing va vb with
  | nil =>
      simp only [readAllAux] at ha hb
      cases ha; cases hb
      simp [triplesEq]
  | cons hd t ih =>
      obtain ⟨n, p⟩ := hd
      cases hva : readProp a p with
      | error e =>
          simp only [readAllAux, bind, Except.bind, hva] at ha
          exact absurd ha (by simp)
      | ok v1 =>
          cases hvb : readProp b p with
          | error e =>
              simp only [readAllAux, bind, Except.bind, hvb] at hb
              exact absurd hb (by simp)
          | ok v2 =>
              simp only [readAllAux, bind, Except.bind, hva, hvb] at ha hb
              cases hta : readAllAux a t with
              | error e => rw [hta] at ha; exact absurd ha (by simp)
              | ok ta =>
                  cases htb : readAllAux b t with
                  | error e => rw [htb] at hb; exact absurd hb (by simp)
                  | ok tb =>
                      rw [hta] at ha; rw [htb] at hb
                      cases ha; cases hb
                      simp only [triplesEq, bind, Except.bind, hva, hvb]
                      by_cases hv : v1 = v2
                      · rw [if_pos (by simp [hv])]
                        rw [ih ta tb hta htb]
                        simp [hv]
                      · rw [if_neg (by simp [hv])]
                        simp [hv]

/-- Contract class A9 with one integer field x. -/
def cBase : ContractType :=
  ⟨[⟨"A9", [("x", intProp 1 Option.none false false true Val.none)]⟩], true, false⟩

/-- Contract class B9, a subclass of A9 adding the integer field y; its
discovery chain is A9 followed by B9 and it shares the descriptor object
of x with A9. -/
def cDerived : ContractType :=
  ⟨[⟨"A9", [("x", intProp 1 Option.none false false true Val.none)]⟩,
    ⟨"B9", [("y", intProp 2 Option.none false false true Val.none)]⟩], true, false⟩

/-- C9 counterexample: an A9 instance compares EQUAL to an instance of
the strict subclass B9 (isinstance passes and zip truncates the longer
property list), although their concrete contract types differ — so
equality does not imply equal concrete types. -/
theorem structural_eq_subclass_truncation :
    initContract cBase (some (Val.dict [("x", Val.int 1)])) [] =
      .ok (forceInst (initContract cBase (some (Val.dict [("x", Val.int 1)])) [])) ∧
    initContract cDerived (some (Val.dict [("x", Val.int 1), ("y", Val.int 2)])) [] =
      .ok (forceInst (initContract cDerived
        (some (Val.dict [("x", Val.int 1), ("y", Val.int 2)])) [])) ∧
    pyEq (forceInst (initContract cBase (some (Val.dict [("x", Val.int 1)])) []))
        (forceInst (initContract cDerived
          (some (Val.dict [("x", Val.int 1), ("y", Val.int 2)])) [])) = .ok true ∧
    cBase.clsname ≠ cDerived.clsname :=
  ⟨rfl, rfl, rfl, by decide⟩

/-- C9 (amended): restricted to two instances of the SAME concrete
contract type (same type and discovered property table), equality as
implemented holds exactly when the current values of the declared fields,
read in discovery order, are pairwise equal; across a subclass the
comparison truncates and may identify instances of different types. -/
theorem pyEq_same_type_iff (a b : Inst) (va vb : List Val)
    (hT : a.ctype = b.ctype) (hP : a.props = b.props)
    (hchain : a.ctype.chain ≠ [])
    (ha : a.readAll = .ok va) (hb : b.readAll = .ok vb) :
    pyEq a b = .ok true ↔ va = vb := by
  unfold pyEq
  rw [← hT, isInstanceOf_refl a.ctype hchain]
  rw [if_pos rfl]
  unfold Inst.readAll at ha hb
  rw [← hP] at hb
  rw [← hP]
  exact triplesEq_same a b a.props va vb ha hb

theorem pyEq_same_type_iff_witness :
    pyEq (forceInst (initContract cOne (some (Val.dict [("x", Val.int 7)])) []))
        (forceInst (initContract cOne (some (Val.dict [("x", Val.int 7)])) [])) =
      .ok true ↔ [Val.int 7] = [Val.int 7] :=
  pyEq_same_type_iff _ _ [Val.int 7] [Val.int 7] rfl rfl
    (by exact List.cons_ne_nil _ _) rfl rfl

/-- C10: field values are stored under the descriptor EXTERNAL name, not
the field identifier.  Hence a successful assignment to one declared
field (1) rewrites exactly the slot of its external name, (2) leaves the
value read through any declared field with a different external name
unchanged, and (3) makes any declared field sharing the same external
name read the newly written value from the shared slot (aliasing). -/
theorem setattr_external_name_aliasing (i i2 : Inst) (id1 id2 : String)
    (p1 p2 : LazyProperty) (v : Val)
    (h1 : lookupA i.props id1 = some p1)
    (h2 : lookupA i.props id2 = some p2)
    (hset : i.setAttr id1 v = .ok i2) :
    i2.vals = insertA i.vals p1.name v ∧
    (p1.name ≠ p2.name → readProp i2 p2 = readProp i p2) ∧
    (p1.name = p2.name → lookupA i2.vals p2.name = some v) := by
  unfold Inst.setAttr setAttrD at hset
  rw [h1] at hset
  simp only [bind, Except.bind, Except.map] at hset
  cases hval : p1.validate v with
  | error e =>
      rw [hval] at hset
      simp at hset
  | ok u =>
      cases u
      rw [hval] at hset
      simp at hset
      subst hset
      refine ⟨rfl, ?_, ?_⟩
      · intro hne
        unfold readProp
        rw [lookupA_insertA_ne _ _ _ _ hne]
      · intro heq
        rw [← heq]
        exact lookupA_insertA_self _ _ _

/-- Contract class F with fields a and b carrying distinct external
names n1 and n2. -/
def cTwoNames : ContractType :=
  ⟨[⟨"F", [("a", intProp 1 (some "n1") false false true Val.none),
           ("b", intProp 2 (some "n2") false false true Val.none)]⟩], true, false⟩

theorem setattr_external_name_aliasing_witness :
    (forceInst ((forceInst (initContract cTwoNames
        (some (Val.dict [("n1", Val.int 1), ("n2", Val.int 2)])) [])).setAttr
        "a" (Val.int 5))).vals =
      insertA (forceInst (initContract cTwoNames
        (some (Val.dict [("n1", Val.int 1), ("n2", Val.int 2)])) [])).vals
        ((intProp 1 (some "n1") false false true Val.none).resolved "a").name
        (Val.int 5) ∧
    (((intProp 1 (some "n1") false false true Val.none).resolved "a").name ≠
        ((intProp 2 (some "n2") false false true Val.none).resolved "b").name →
      readProp (forceInst ((forceInst (initContract cTwoNames
          (some (Val.dict [("n1", Val.int 1), ("n2", Val.int 2)])) [])).setAttr
          "a" (Val.int 5)))
        ((intProp 2 (some "n2") false false true Val.none).resolved "b") =
      readProp (forceInst (initContract cTwoNames
          (some (Val.dict [("n1", Val.int 1), ("n2", Val.int 2)])) []))
        ((intProp 2 (some "n2") false false true Val.none).resolved "b")) ∧
    (((intProp 1 (some "n1") false false true Val.none).resolved "a").name =
        ((intProp 2 (some "n2") false false true Val.none).resolved "b").name →
      lookupA (forceInst ((forceInst (initContract cTwoNames
          (some (Val.dict [("n1", Val.int 1), ("n2", Val.int 2)])) [])).setAttr
          "a" (Val.int 5))).vals
        ((intProp 2 (some "n2") false false true Val.none).resolved "b").name =
      some (Val.int 5)) :=
  setattr_external_name_aliasing _ _ "a" "b" _ _ (Val.int 5) rfl rfl rfl

/-- The resolved external name of one declaration. -/
def nmOf (d : String × LazyProperty) : String := (d.2.resolved d.1).name

theorem resolved_typeCheck (p : LazyProperty) (i : String) :
    (p.resolved i).typeCheck = p.typeCheck := by
  unfold LazyProperty.resolved; split <;> rfl

theorem resolved_serialize (p : LazyProperty) (i : String) :
    (p.resolved i).serialize = p.serialize := by
  unfold LazyProperty.resolved; split <;> rfl

theorem resolved_not_none (p : LazyProperty) (i : String) :
    (p.resolved i).not_none = p.not_none := by
  unfold LazyProperty.resolved; split <;> rfl

theorem resolved_exclude (p : LazyProperty) (i : String) :
    (p.resolved i).exclude_if_none = p.exclude_if_none := by
  unfold LazyProperty.resolved; split <;> rfl

theorem nmOf_explicit (d : String × LazyProperty) (h : d.2.name ≠ defaultName) :
    nmOf d = d.2.name := by
  unfold nmOf LazyProperty.resolved
  rw [if_neg h]

theorem nmOf_anonymous (d : String × LazyProperty) (h : d.2.name = defaultName) :
    nmOf d = d.1 := by
  unfold nmOf LazyProperty.resolved
  rw [if_pos h]

/-- A validate call on a non-None value passing the type test succeeds. -/
theorem validate_ok_of (q : LazyProperty) (w : Val) (hw : w ≠ Val.none)
    (ht : q.typeCheck w = true) : q.validate w = .ok () := by
  unfold LazyProperty.validate
  rw [if_neg (by simp [hw]), if_neg (by simp [ht])]

theorem lookupA_of_mem_nodup {α : Type} (l : List (String × α)) (k : String) (v : α)
    (hm : (k, v) ∈ l) (hn : (l.map Prod.fst).Nodup) : lookupA l k = some v := by
  induction l with
  | nil => simp at hm
  | cons hd t ih =>
      obtain ⟨k0, w⟩ := hd
      simp only [List.map_cons, List.nodup_cons] at hn
      rcases List.mem_cons.mp hm with he | ht
      · cases he
        simp [lookupA]
      · have hk : k0 ≠ k := by
          intro h
          subst h
          exact hn.1 (List.mem_map_of_mem Prod.fst ht)
        simp only [lookupA, hk, if_false]
        exact ih ht hn.2

theorem lookupA_eq_none_iff {α : Type} (l : List (String × α)) (k : String) :
    lookupA l k = Option.none ↔ k ∉ l.map Prod.fst := by
  induction l with
  | nil => simp [lookupA]
  | cons hd t ih =>
      obtain ⟨k0, w⟩ := hd
      by_cases hk : k0 = k
      · subst hk
        simp [lookupA]
      · simp [lookupA, hk, ih, Ne.symm hk]

theorem keyIn_of_mem {α : Type} (l : List (String × α)) (k : String) (v : α)
    (hm : (k, v) ∈ l) : keyIn l k = true := by
  induction l with
  | nil => simp at hm
  | cons hd t ih =>
      obtain ⟨k0, w⟩ := hd
      rcases List.mem_cons.mp hm with he | ht
      · cases he; simp [keyIn, lookupA]
      · by_cases hk : k0 = k
        · simp [keyIn, lookupA, hk]
        · simpa [keyIn, lookupA, hk] using ih ht

theorem keyIn_append {α : Type} (a b : List (String × α)) (k : String) :
    keyIn (a ++ b) k = (keyIn a k || keyIn b k) := by
  induction a with
  | nil => simp [keyIn, lookupA]
  | cons hd t ih =>
      obtain ⟨k0, w⟩ := hd
      by_cases hk : k0 = k
      · simp [keyIn, lookupA, hk]
      · simp only [List.cons_append, keyIn, lookupA, hk, if_false]
        simpa [keyIn] using ih

/-- The external-name-to-identifier entries contributed by a declaration
list: one per explicitly named descriptor, in order. -/
def expl (ds : List (String × LazyProperty)) : List (String × String) :=
  (ds.filter (fun d => d.2.name != defaultName)).map (fun d => (d.2.name, d.1))

theorem regAll_props_shape (st : DiscSt) (ds : List (String × LazyProperty))
    (hfresh : ∀ d ∈ ds, keyIn st.props d.1 = false)
    (hids : (ds.map Prod.fst).Nodup) :
    (regAll st ds).props = st.props ++ ds.map (fun d => (d.1, d.2.resolved d.1)) := by
  induction ds generalizing st with
  | nil => simp [regAll]
  | cons hd t ih =>
      obtain ⟨i, p⟩ := hd
      simp only [List.map_cons, List.nodup_cons] at hids
      have hstep : (registerDecl st i p).props = st.props ++ [(i, p.resolved i)] := by
        unfold registerDecl
        exact insertA_fresh _ _ _ (hfresh (i, p) (by simp))
      rw [regAll, ih (registerDecl st i p) ?_ hids.2, hstep, List.append_assoc]
      · rfl
      · intro d hd
        rw [hstep, keyIn_append]
        have h1 : keyIn st.props d.1 = false := hfresh d (by simp [hd])
        have h2 : keyIn [(i, p.resolved i)] d.1 = false := by
          have : i ≠ d.1 := by
            intro h
            exact hids.1 (h ▸ List.mem_map_of_mem Prod.fst hd)
          simp [keyIn, lookupA, this]
        rw [h1, h2]
        rfl

theorem regAll_mappings_shape (st : DiscSt) (ds : List (String × LazyProperty))
    (hfresh : ∀ d ∈ ds, d.2.name ≠ defaultName → keyIn st.mappings d.2.name = false)
    (hnms : (ds.map nmOf).Nodup) :
    (regAll st ds).mappings = st.mappings ++ expl ds := by
  induction ds generalizing st with
  | nil => simp [regAll, expl]
  | cons hd t ih =>
      obtain ⟨i, p⟩ := hd
      simp only [List.map_cons, List.nodup_cons] at hnms
      by_cases hanon : p.name = defaultName
      · have hstep : (registerDecl st i p).mappings = st.mappings := by
          unfold registerDecl
          simp [hanon]
        rw [regAll, ih (registerDecl st i p) ?_ hnms.2]
        · rw [hstep]
          unfold expl
          simp [List.filter, hanon]
        · intro d hd hexp
          rw [hstep]
          exact hfresh d (by simp [hd]) hexp
      · have hstep : (registerDecl st i p).mappings =
            st.mappings ++ [(p.name, i)] := by
          unfold registerDecl
          rw [if_neg hanon]
          exact insertA_fresh _ _ _ (hfresh (i, p) (by simp) hanon)
        rw [regAll, ih (registerDecl st i p) ?_ hnms.2, hstep, List.append_assoc]
        · unfold expl
          simp only [List.filter_cons]
          rw [if_pos (by simp [hanon])]
          rfl
        · intro d hd hexp
          rw [hstep, keyIn_append]
          have h1 : keyIn st.mappings d.2.name = false := hfresh d (by simp [hd]) hexp
          have h2 : keyIn [(p.name, i)] d.2.name = false := by
            have hne : p.name ≠ d.2.name := by
              intro h
              apply hnms.1
              rw [nmOf_explicit (i, p) hanon]
              rw [show (((i, p) : String × LazyProperty)).2.name = d.2.name from h]
              rw [← nmOf_explicit d hexp]
              exact List.mem_map_of_mem nmOf hd
            simp [keyIn, lookupA, hne]
          rw [h1, h2]
          rfl

/-- The key remapping performed by _populate_properties sends the
resolved external name of every declared field back to its identifier. -/
theorem mappings_resolve (ds : List (String × LazyProperty))
    (hnms : (ds.map nmOf).Nodup) (d : String × LazyProperty) (hd : d ∈ ds) :
    (lookupA (expl ds) (nmOf d)).getD (nmOf d) = d.1 := by
  by_cases hanon : d.2.name = defaultName
  · have hnone : lookupA (expl ds) (nmOf d) = Option.none := by
      rw [lookupA_eq_none_iff]
      intro hmem
      unfold expl at hmem
      rw [List.map_map] at hmem
      obtain ⟨d1, hd1, he⟩ := List.mem_map.mp hmem
      have hd1f := List.mem_filter.mp hd1
      have hexp : d1.2.name ≠ defaultName := by simpa using hd1f.2
      have heq : nmOf d1 = nmOf d := by
        rw [nmOf_explicit d1 hexp]
        exact he
      have hdd := List.inj_on_of_nodup_map hnms hd1f.1 hd heq
      rw [← hdd] at hanon
      exact hexp hanon
    rw [hnone]
    exact (nmOf_anonymous d hanon).symm ▸ rfl
  · have hmem : (d.2.name, d.1) ∈ expl ds := by
      unfold expl
      exact List.mem_map_of_mem _ (List.mem_filter.mpr ⟨hd, by simpa using hanon⟩)
    have hkeys : ((expl ds).map Prod.fst).Nodup := by
      unfold expl
      rw [List.map_map]
      have hcongr : ((ds.filter fun d => d.2.name != defaultName).map
          (Prod.fst ∘ fun d => (d.2.name, d.1))) =
          (ds.filter fun d => d.2.name != defaultName).map nmOf := by
        apply List.map_congr_left
        intro a ha
        have hexp := (List.mem_filter.mp ha).2
        exact (nmOf_explicit a (by simpa using hexp)).symm
      rw [hcongr]
      exact ((List.filter_sublist ds).map nmOf).nodup hnms
    rw [nmOf_explicit d hanon, lookupA_of_mem_nodup _ _ _ hmem hkeys]
    rfl

/-- Helper: populating a run of declared fields whose raw values
deserialize cleanly stores, in order, each deserialized value under the
field external name. -/
theorem popRun (cn : String) (st : DiscSt) (ig : Bool)
    (rv wv : (String × LazyProperty) → Val)
    (sub : List (String × LazyProperty)) :
    ∀ (acc : List (String × Val)),
    (∀ d ∈ sub,
      lookupA st.props d.1 = some (d.2.resolved d.1) ∧
      (lookupA st.mappings (nmOf d)).getD (nmOf d) = d.1 ∧
      rv d ≠ Val.none ∧
      d.2.deserialize (rv d) = .ok (wv d) ∧
      wv d ≠ Val.none ∧
      d.2.typeCheck (wv d) = true) →
    (∀ d ∈ sub, keyIn acc (nmOf d) = false) →
    ((sub.map nmOf).Nodup) →
    populateList cn st ig (sub.map fun d => (nmOf d, rv d)) acc =
      .ok (acc ++ sub.map fun d => (nmOf d, wv d)) := by
  induction sub with
  | nil =>
      intro acc _ _ _
      simp [populateList]
  | cons d t ih =>
      intro acc hfacts hfresh hnodup
      obtain ⟨hF1, hF2, hrv, hdes, hwv, htc⟩ := hfacts d (by simp)
      simp only [List.map_cons, List.nodup_cons] at hnodup
      have hval : (d.2.resolved d.1).validate (wv d) = .ok () :=
        validate_ok_of _ _ hwv (by rw [resolved_typeCheck]; exact htc)
      have hpe : popEntry cn st ig acc (nmOf d) (rv d) =
          .ok (insertA acc (nmOf d) (wv d)) := by
        simp only [popEntry, hF2, hF1, bind, Except.bind, if_neg hrv,
          resolved_deserialize, hdes, setAttrD, hval]
        simp only [pure, Except.pure, hval]
        rfl
      simp only [List.map_cons, populateList, hpe, bind, Except.bind]
      rw [insertA_fresh _ _ _ (hfresh d (by simp))]
      rw [ih (acc ++ [(nmOf d, wv d)]) (fun d' hd' => hfacts d' (by simp [hd'])) ?_
        hnodup.2]
      · rw [List.append_assoc]
        rfl
      · intro d' hd'
        rw [keyIn_append]
        have h1 := hfresh d' (by simp [hd'])
        have h2 : keyIn [(nmOf d, wv d)] (nmOf d') = false := by
          have hne : nmOf d ≠ nmOf d' :=
            fun h => hnodup.1 (h ▸ List.mem_map_of_mem nmOf hd')
          simp [keyIn, lookupA, hne]
        rw [h1, h2]
        rfl

/-- Helper: serializing a run of declared fields whose values read
cleanly, are non-None and carry non-private names emits, in order, each
serialized value under the field external name. -/
theorem toDictRun (i1 : Inst) (wv : (String × LazyProperty) → Val)
    (sub : List (String × LazyProperty)) :
    ∀ (acc : List (String × Val)),
    (∀ d ∈ sub, readProp i1 (d.2.resolved d.1) = .ok (wv d) ∧ wv d ≠ Val.none ∧
      beginsUnderscore (nmOf d) = false) →
    (∀ d ∈ sub, keyIn acc (nmOf d) = false) →
    ((sub.map nmOf).Nodup) →
    toDictAux i1 (sub.map fun d => (d.1, d.2.resolved d.1)) acc =
      .ok (acc ++ sub.map fun d => (nmOf d, d.2.serialize (wv d))) := by
  induction sub with
  | nil =>
      intro acc _ _ _
      simp [toDictAux]
  | cons d t ih =>
      intro acc hfacts hfresh hnodup
      obtain ⟨hread, hwv, hund⟩ := hfacts d (by simp)
      simp only [List.map_cons, List.nodup_cons] at hnodup
      simp only [List.map_cons, toDictAux, bind, Except.bind, hread]
      have hund' : beginsUnderscore (d.2.resolved d.1).name = false := hund
      rw [if_pos (And.intro (by simp [hund']) (Or.inl hwv))]
      rw [show (d.2.resolved d.1).name = nmOf d from rfl,
        show (d.2.resolved d.1).serialize = d.2.serialize from resolved_serialize d.2 d.1]
      rw [insertA_fresh _ _ _ (hfresh d (by simp))]
      rw [ih (acc ++ [(nmOf d, d.2.serialize (wv d))])
        (fun d' hd' => hfacts d' (by simp [hd'])) ?_ hnodup.2]
      · rw [List.append_assoc]
        rfl
      · intro d' hd'
        rw [keyIn_append]
        have h1 := hfresh d' (by simp [hd'])
        have h2 : keyIn [(nmOf d, d.2.serialize (wv d))] (nmOf d') = false := by
          have hne : nmOf d ≠ nmOf d' :=
            fun h => hnodup.1 (h ▸ List.mem_map_of_mem nmOf hd')
          simp [keyIn, lookupA, hne]
        rw [h1, h2]
        rfl

/-- Helper: reading a run of declared fields whose values read cleanly
yields the value list in order. -/
theorem readRun (i1 : Inst) (wv : (String × LazyProperty) → Val)
    (sub : List (String × LazyProperty))
    (hfacts : ∀ d ∈ sub, readProp i1 (d.2.resolved d.1) = .ok (wv d)) :
    readAllAux i1 (sub.map fun d => (d.1, d.2.resolved d.1)) = .ok (sub.map wv) := by
  induction sub with
  | nil => simp [readAllAux]
  | cons d t ih =>
      simp only [List.map_cons, readAllAux, bind, Except.bind,
        hfacts d (by simp), ih (fun d' hd' => hfacts d' (by simp [hd']))]

/-- Helper: a declaration whose resolved name occurs in the source passes
its discovery check outright. -/
theorem checkDecl_ok_of_name (cn : String) (es : List (String × Val))
    (i : String) (p : LazyProperty) (h : keyIn es (p.resolved i).name = true) :
    checkDecl cn es i p = .ok () := by
  unfold checkDecl
  rw [if_pos (Or.inl h)]

/-- Contract class R whose field x has the private external name _x. -/
def cUnderscore : ContractType :=
  ⟨[⟨"R", [("x", intProp 1 (some "_x") false false true Val.none)]⟩], true, false⟩

/-- C1 counterexample: with identity (hence truly inverse) serialize and
deserialize hooks and a well-typed source, the round trip through to_dict
is NOT the identity when a field uses a private external name: to_dict
drops the field, the rebuilt instance falls back to the default None, and
the two instances compare unequal. -/
theorem roundtrip_broken_by_private_name :
    initContract cUnderscore (some (Val.dict [("_x", Val.int 1)])) [] =
      .ok (forceInst (initContract cUnderscore
        (some (Val.dict [("_x", Val.int 1)])) [])) ∧
    Inst.to_dict (forceInst (initContract cUnderscore
      (some (Val.dict [("_x", Val.int 1)])) [])) = .ok [] ∧
    initContract cUnderscore (some (Val.dict [])) [] =
      .ok (forceInst (initContract cUnderscore (some (Val.dict [])) [])) ∧
    pyEq (forceInst (initContract cUnderscore
        (some (Val.dict [("_x", Val.int 1)])) []))
      (forceInst (initContract cUnderscore (some (Val.dict [])) [])) =
      .ok false :=
  ⟨rfl, rfl, rfl, rfl⟩

/-- The value a deserialize hook produces on success (dummy on failure). -/
def wOf (p : LazyProperty) (r : Val) : Val :=
  match p.deserialize r with
  | .ok w => w
  | .error _ => Val.none

/-- The side conditions under which one declared field round-trips: raw
value non-None, non-private external name, deserialization succeeding
with a non-None well-typed value, and serialize/deserialize mutually
inverse at that value with a non-None serialization. -/
def RoundtripField (d : String × LazyProperty) (r : Val) : Prop :=
  r ≠ Val.none ∧
  beginsUnderscore (nmOf d) = false ∧
  d.2.deserialize r = .ok (wOf d.2 r) ∧
  wOf d.2 r ≠ Val.none ∧
  d.2.typeCheck (wOf d.2 r) = true ∧
  d.2.serialize (wOf d.2 r) ≠ Val.none ∧
  d.2.deserialize (d.2.serialize (wOf d.2 r)) = .ok (wOf d.2 r)

/-- C1 (amended): for every non-dynamic contract whose declared
identifiers and external names are each pairwise distinct, built from the
well-typed mapping assigning every field (under its external name) a raw
value satisfying the round-trip side conditions — in particular
serialize/deserialize truly inverse and no private external names —
constructing a new instance of the same contract type from to_dict() of
the original succeeds and yields an instance equal to the original
(indeed the identical instance state). -/
theorem roundtrip_equal (t : ContractType) (rv : (String × LazyProperty) → Val)
    (hdyn : t.dynamic = false)
    (hchain : t.chain ≠ [])
    (hids : ((flatDecls t.chain).map Prod.fst).Nodup)
    (hnms : ((flatDecls t.chain).map nmOf).Nodup)
    (hfields : ∀ d ∈ flatDecls t.chain, RoundtripField d (rv d)) :
    ∃ i1 dd i2,
      initContract t (some (Val.dict ((flatDecls t.chain).map
        (fun d => (nmOf d, rv d))))) [] = .ok i1 ∧
      i1.to_dict = .ok dd ∧
      initContract t (some (Val.dict dd)) [] = .ok i2 ∧
      i2 = i1 ∧
      pyEq i1 i2 = .ok true := by
  have hV : ∀ d ∈ flatDecls t.chain,
      lookupA ((flatDecls t.chain).map fun d =>
        (nmOf d, wOf d.2 (rv d))) (nmOf d) = some (wOf d.2 (rv d)) := by
    intro d hd
    refine lookupA_of_mem_nodup _ _ _ (List.mem_map_of_mem _ hd) ?_
    simpa [List.map_map, Function.comp] using hnms
  have hstp : (regAll ⟨[], []⟩ (flatDecls t.chain)).props =
      (flatDecls t.chain).map fun d => (d.1, d.2.resolved d.1) := by
    rw [regAll_props_shape ⟨[], []⟩ (flatDecls t.chain) (fun d _ => rfl) hids]
    rfl
  have hstm : (regAll ⟨[], []⟩ (flatDecls t.chain)).mappings =
      expl (flatDecls t.chain) := by
    rw [regAll_mappings_shape ⟨[], []⟩ (flatDecls t.chain) (fun d _ _ => rfl) hnms]
    rfl
  have hF1 : ∀ d ∈ flatDecls t.chain,
      lookupA (regAll ⟨[], []⟩ (flatDecls t.chain)).props d.1 =
        some (d.2.resolved d.1) := by
    intro d hd
    rw [hstp]
    refine lookupA_of_mem_nodup _ _ _ (List.mem_map_of_mem _ hd) ?_
    simpa [List.map_map, Function.comp] using hids
  have hF2 : ∀ d ∈ flatDecls t.chain,
      (lookupA (regAll ⟨[], []⟩ (flatDecls t.chain)).mappings
        (nmOf d)).getD (nmOf d) = d.1 := by
    intro d hd
    rw [hstm]
    exact mappings_resolve _ hnms d hd
  have hpop1 := popRun t.clsname (regAll ⟨[], []⟩ (flatDecls t.chain))
    t.ignoreUndefined rv (fun d => wOf d.2 (rv d)) (flatDecls t.chain) []
    (by
      intro d hd
      obtain ⟨h1, h2, h3, h4, h5, h6, h7⟩ := hfields d hd
      exact ⟨hF1 d hd, hF2 d hd, h1, h3, h4, h5⟩)
    (fun d _ => rfl) hnms
  have hdisc : ∀ (es : List (String × Val)),
      (∀ d ∈ flatDecls t.chain, keyIn es (nmOf d) = true) →
      discoverChain t.clsname (Val.dict es) t.chain ⟨[], []⟩ =
        .ok (regAll ⟨[], []⟩ (flatDecls t.chain)) := by
    intro es hkeys
    rw [discoverChain_eq, firstCheckErr_none_of t.clsname es (flatDecls t.chain)
      (fun d hd => checkDecl_ok_of_name _ _ _ _ (hkeys d hd))]
  have hinit1 : initContract t (some (Val.dict ((flatDecls t.chain).map
      (fun d => (nmOf d, rv d))))) [] =
      .ok ⟨t, (regAll ⟨[], []⟩ (flatDecls t.chain)).props,
        (regAll ⟨[], []⟩ (flatDecls t.chain)).mappings,
        (flatDecls t.chain).map fun d => (nmOf d, wOf d.2 (rv d))⟩ := by
    rw [initContract_dict]
    simp only [initFrom, bind, Except.bind]
    rw [hdisc _ (fun d hd => keyIn_of_mem _ _ (rv d) (List.mem_map_of_mem _ hd)),
      hdyn]
    simp only [Bool.false_eq_true, if_false, populateBase]
    rw [hpop1]
    rfl
  set i1 : Inst := ⟨t, (regAll ⟨[], []⟩ (flatDecls t.chain)).props,
    (regAll ⟨[], []⟩ (flatDecls t.chain)).mappings,
    (flatDecls t.chain).map fun d => (nmOf d, wOf d.2 (rv d))⟩ with hi1
  have hreads : ∀ d ∈ flatDecls t.chain,
      readProp i1 (d.2.resolved d.1) = .ok (wOf d.2 (rv d)) := by
    intro d hd
    obtain ⟨h1, h2, h3, h4, h5, h6, h7⟩ := hfields d hd
    unfold readProp
    have : lookupA i1.vals (d.2.resolved d.1).name = some (wOf d.2 (rv d)) :=
      hV d hd
    rw [this]
    simp only [Option.getD]
    rw [validate_ok_of _ _ h4 (by rw [resolved_typeCheck]; exact h5)]
    rfl
  have htodict : i1.to_dict = .ok ((flatDecls t.chain).map
      fun d => (nmOf d, d.2.serialize (wOf d.2 (rv d)))) := by
    unfold Inst.to_dict
    have hp : i1.props = (flatDecls t.chain).map fun d => (d.1, d.2.resolved d.1) :=
      hstp
    rw [hp]
    rw [toDictRun i1 (fun d => wOf d.2 (rv d)) (flatDecls t.chain) []
      (fun d hd => ⟨hreads d hd, (hfields d hd).2.2.2.1, (hfields d hd).2.1⟩)
      (fun d _ => rfl) hnms]
    rfl
  have hpop2 := popRun t.clsname (regAll ⟨[], []⟩ (flatDecls t.chain))
    t.ignoreUndefined (fun d => d.2.serialize (wOf d.2 (rv d)))
    (fun d => wOf d.2 (rv d)) (flatDecls t.chain) []
    (by
      intro d hd
      obtain ⟨h1, h2, h3, h4, h5, h6, h7⟩ := hfields d hd
      exact ⟨hF1 d hd, hF2 d hd, h6, h7, h4, h5⟩)
    (fun d _ => rfl) hnms
  have hinit2 : initContract t (some (Val.dict ((flatDecls t.chain).map
      fun d => (nmOf d, d.2.serialize (wOf d.2 (rv d)))))) [] = .ok i1 := by
    rw [initContract_dict]
    simp only [initFrom, bind, Except.bind]
    rw [hdisc _ (fun d hd => keyIn_of_mem _ _ (d.2.serialize (wOf d.2 (rv d)))
        (List.mem_map_of_mem _ hd)),
      hdyn]
    simp only [Bool.false_eq_true, if_false, populateBase]
    rw [hpop2]
    rfl
  have hra : readAllAux i1 i1.props = .ok ((flatDecls t.chain).map
      fun d => wOf d.2 (rv d)) := by
    have hp : i1.props = (flatDecls t.chain).map fun d => (d.1, d.2.resolved d.1) :=
      hstp
    rw [hp]
    exact readRun i1 _ (flatDecls t.chain) hreads
  have hpyeq : pyEq i1 i1 = .ok true := by
    unfold pyEq
    rw [show i1.ctype = t from rfl, isInstanceOf_refl t hchain, if_pos rfl]
    exact (triplesEq_same i1 i1 i1.props _ _ hra hra).mpr rfl
  exact ⟨i1, _, i1, hinit1, htodict, hinit2, rfl, hpyeq⟩

theorem roundtrip_equal_witness :
    ∃ i1 dd i2,
      initContract cTwoNames (some (Val.dict ((flatDecls cTwoNames.chain).map
        (fun d => (nmOf d, Val.int 1))))) [] = .ok i1 ∧
      i1.to_dict = .ok dd ∧
      initContract cTwoNames (some (Val.dict dd)) [] = .ok i2 ∧
      i2 = i1 ∧
      pyEq i1 i2 = .ok true :=
  roundtrip_equal cTwoNames (fun _ => Val.int 1) rfl
    (by simp [cTwoNames])
    (by decide)
    (by decide)
    (by
      intro d hd
      simp only [cTwoNames, flatDecls, List.append_nil, List.mem_cons,
        List.mem_singleton] at hd
      rcases hd with rfl | hd
      · exact ⟨by decide, rfl, rfl, by decide, rfl, by decide, rfl⟩
      · rcases hd with rfl | hd
        · exact ⟨by decide, rfl, rfl, by decide, rfl, by decide, rfl⟩
        · simp at hd)

/-- Contract class W with one optional integer field y. -/
def cW : ContractType :=
  ⟨[⟨"W", [("y", intProp 1 Option.none false false true Val.none)]⟩], true, false⟩

theorem to_dict_none_handling_witness :
    (((intProp 1 Option.none false false true Val.none).resolved "y").exclude_if_none
        = true →
      keyIn ([] : List (String × Val))
        ((intProp 1 Option.none false false true Val.none).resolved "y").name
        = false) ∧
    (((intProp 1 Option.none false false true Val.none).resolved "y").exclude_if_none
        = false →
      beginsUnderscore
        ((intProp 1 Option.none false false true Val.none).resolved "y").name = false →
      ((intProp 1 Option.none false false true Val.none).resolved "y").serialize
        Val.none = Val.none →
      lookupA ([] : List (String × Val))
        ((intProp 1 Option.none false false true Val.none).resolved "y").name
        = some Val.none) :=
  to_dict_none_handling
    (forceInst (initContract cW (some (Val.dict [("y", Val.none)])) []))
    "y" ((intProp 1 Option.none false false true Val.none).resolved "y") []
    (List.mem_singleton.mpr rfl)
    (by exact List.nodup_singleton "y")
    rfl rfl
